import Mathlib

/-!
Verification development for the request-admission and caching subsystem of
the rag-agent-platform repository.

The definitions below are a shallow embedding of the Python source:
  * `src/rag_agent/security.py` — `rate_limit_key`, `check_rate_limit`
    (fixed-window rate limiting with a Redis backend and an in-memory
    fallback dictionary `_memory_rate_limits`);
  * `src/rag_agent/caching.py` — `CacheManager.get/set/delete`,
    `CacheManager._generate_key` (MD5 of a canonical JSON serialization).

Python dictionaries are modelled as association lists with unique keys
(insertion replaces in place, otherwise appends, matching dict update
semantics; lookups, sizes and minima over keys do not depend on order).
Time is a natural number of seconds (`int(time.time())` in the source).
Whether the Redis client object exists is the configuration flag
`hasRedis` (`security_config.redis_client` / `self.redis_client` being
non-None); whether a given call's Redis operations succeed or raise a
connectivity error is the per-call flag `redisUp` (a raised exception is
caught by the source's blanket `except Exception` and control falls
through to the in-memory code).
-/

/-- Association-list lookup over string keys (Python `d[k]` / `k in d`). -/
def lookupA {α : Type} : List (String × α) → String → Option α
  | [], _ => none
  | (a, b) :: t, k => if a = k then some b else lookupA t k

/-- Association-list insert/replace (Python `d[k] = v`): an existing key is
updated in place, a new key is appended, preserving dict insertion order. -/
def insertA {α : Type} : List (String × α) → String → α → List (String × α)
  | [], k, v => [(k, v)]
  | (a, b) :: t, k, v => if a = k then (k, v) :: t else (a, b) :: insertA t k v

/-- Association-list erase (Python `del d[k]`). -/
def eraseA {α : Type} : List (String × α) → String → List (String × α)
  | [], _ => []
  | (a, b) :: t, k => if a = k then t else (a, b) :: eraseA t k

/-- Strict lexicographic comparison of code-point sequences, exactly
Python's `<` on strings (and Lean's order on `String`, restated as an
executable Boolean over `Nat` code points). -/
def natListLt : List Nat → List Nat → Bool
  | _, [] => false
  | [], _ :: _ => true
  | a :: as, b :: bs =>
    if a < b then true else if b < a then false else natListLt as bs

/-- The code points of a string. -/
def codes (s : String) : List Nat := s.data.map Char.toNat

/-- Python's `s1 < s2` on strings: lexicographic by code point. -/
def strLt (s₁ s₂ : String) : Bool := natListLt (codes s₁) (codes s₂)

/-- Lexicographically smallest key of a nonempty association list:
Python's `min(d.keys())`, string comparison being code-point lexicographic.
Returns `""` on the empty list (never reached by the source, which only
calls `min` on a dict of size greater than two). -/
def minKeyA {α : Type} : List (String × α) → String
  | [] => ""
  | (a, _) :: t => t.foldl (fun acc p => if strLt p.1 acc then p.1 else acc) a

/-- Result of one `check_rate_limit` call: the source either returns
normally (`allowed`) or raises an HTTP 429 `HTTPException` (`denied`). -/
inductive RLResult : Type
  | allowed : RLResult
  | denied : RLResult
deriving DecidableEq, Repr

/-- The configuration read by `check_rate_limit` from `security_config`. -/
structure RLConfig : Type where
  /-- Models `RATE_LIMIT_ENABLED`. -/
  enabled : Bool
  /-- Models `RATE_LIMIT_REQUESTS`. -/
  limit : Nat
  /-- Models `RATE_LIMIT_WINDOW` (seconds). -/
  window : Nat
  /-- whether `security_config.redis_client` is non-None -/
  hasRedis : Bool
deriving DecidableEq, Repr

/-- Mutable state touched by `check_rate_limit`: the Redis counters
(`redis_key ↦ count`; `pipe.expire` only bounds Redis memory and is not
observable because every key embeds its window id) and the module-level
fallback dictionary `_memory_rate_limits : key ↦ (window_key ↦ count)`. -/
structure RLState : Type where
  redis : List (String × Nat)
  mem : List (String × List (String × Nat))
deriving DecidableEq, Repr

/-- The empty initial state (fresh process, empty Redis database). -/
def RLState.empty : RLState := ⟨[], []⟩

/-- Embeds `rate_limit_key(identifier, endpoint)` from security.py. -/
def rate_limit_key (identifier endpoint : String) : String :=
  "rate_limit:" ++ identifier ++ ":" ++ endpoint

/-- The in-memory fallback tail of `check_rate_limit` (security.py lines
161-180): create the bucket dict if needed, increment the current window's
counter, evict the `min`-key bucket when more than two buckets remain, and
deny iff the incremented counter is `>=` the configured limit. -/
def memoryRateLimitStep (cfg : RLConfig) (st : RLState) (key windowKey : String) :
    RLState × RLResult :=
  let bucket := (lookupA st.mem key).getD []
  let c := (lookupA bucket windowKey).getD 0 + 1
  let bucket := insertA bucket windowKey c
  let bucket := if bucket.length > 2 then eraseA bucket (minKeyA bucket) else bucket
  let st := { st with mem := insertA st.mem key bucket }
  (st, if c ≥ cfg.limit then .denied else .allowed)

/-- Embeds `check_rate_limit(identifier, endpoint)` from security.py.  `now` is
`int(time.time())`; `redisUp` is whether this call's Redis operations
succeed (when they raise, the blanket `except Exception` falls through to
the in-memory path).  Note that the HTTP 429 raised inside the Redis `try`
block is itself caught by that same `except Exception`, so a Redis-side
rejection also falls through to the in-memory path. -/
def check_rate_limit (cfg : RLConfig) (st : RLState)
    (identifier endpoint : String) (now : Nat) (redisUp : Bool) :
    RLState × RLResult :=
  if cfg.enabled = false then (st, .allowed)
  else
    let key := rate_limit_key identifier endpoint
    let windowStart := now / cfg.window
    let windowKey := Nat.repr windowStart
    if cfg.hasRedis then
      if redisUp then
        let redisKey := key ++ ":" ++ windowKey
        match lookupA st.redis redisKey with
        | some current =>
          if current ≥ cfg.limit then
            -- the raised 429 is swallowed by `except Exception`: fall through
            memoryRateLimitStep cfg st key windowKey
          else
            ({ st with redis := insertA st.redis redisKey (current + 1) }, .allowed)
        | none =>
          ({ st with redis := insertA st.redis redisKey 1 }, .allowed)
      else
        -- connectivity error raised by the Redis client: fall through
        memoryRateLimitStep cfg st key windowKey
    else
      memoryRateLimitStep cfg st key windowKey

/-- Runs `n` successive `check_rate_limit` calls with the same identifier,
endpoint and clock reading, returning the final state and the list of
per-call results in call order. -/
def simulate (cfg : RLConfig) (identifier endpoint : String) (now : Nat)
    (redisUp : Bool) : Nat → RLState → RLState × List RLResult
  | 0, st => (st, [])
  | n + 1, st =>
    let p := check_rate_limit cfg st identifier endpoint now redisUp
    let q := simulate cfg identifier endpoint now redisUp n p.1
    (q.1, p.2 :: q.2)

/-- Number of `Allowed` results in a result list. -/
def allowedCount (rs : List RLResult) : Nat :=
  (rs.filter (fun r => r = .allowed)).length

/-!
## Cache model (caching.py)

Values are modelled as strings (they pass through `json.dumps`/`json.loads`
on the Redis path, an identity round-trip; the serialized form of any JSON
value is a nonempty string, so the truthiness test `if cached:` in
`CacheManager.get` is equivalent to key presence).  A Redis entry written
by `setex(key, ttl, v)` is modelled as `(value, expiresAt)` with
`expiresAt = now + ttl`, readable strictly before `expiresAt`.
-/

/-- Configuration of a `CacheManager`: whether `self.redis_client` is
non-None, and `self.cache_ttl` (3600 in the source). -/
structure CacheConfig : Type where
  hasRedis : Bool
  cacheTtl : Nat
deriving DecidableEq, Repr

/-- Mutable state touched by `CacheManager`: the Redis store
(`key ↦ (value, expiresAt)`) and the module-level fallback dictionaries
`_memory_cache : key ↦ value` and `_cache_timestamps : key ↦ inserted_at`. -/
structure CacheState : Type where
  redis : List (String × (String × Nat))
  mem : List (String × String)
  memTs : List (String × Nat)
deriving DecidableEq, Repr

/-- The empty initial cache state. -/
def CacheState.empty : CacheState := ⟨[], [], []⟩

/-- A live Redis read at time `now`: the stored value while `now` is
strictly before the entry's expiry, absent otherwise. -/
def redisLookup (st : CacheState) (key : String) (now : Nat) : Option String :=
  match lookupA st.redis key with
  | some (v, expiresAt) => if now < expiresAt then some v else none
  | none => none

/-- The in-memory fallback tail of `CacheManager.get` (caching.py lines
60-71): a hit while `time.time() - inserted_at < self.cache_ttl`, and lazy
deletion of the expired entry otherwise. -/
def memCacheGet (cfg : CacheConfig) (st : CacheState) (key : String) (now : Nat) :
    CacheState × Option String :=
  match lookupA st.mem key with
  | some v =>
    match lookupA st.memTs key with
    | some ts =>
      if now - ts < cfg.cacheTtl then (st, some v)
      else ({ st with mem := eraseA st.mem key, memTs := eraseA st.memTs key }, none)
    | none => (st, none)
  | none => (st, none)

/-- Embeds `CacheManager.get(key)` from caching.py.  When the Redis client exists
and its read succeeds, a truthy cached string is returned; on a Redis miss
(falsy `cached`) or on a raised connectivity error, control falls through
to the in-memory fallback. -/
def CacheManager.get (cfg : CacheConfig) (st : CacheState) (key : String)
    (now : Nat) (redisUp : Bool) : CacheState × Option String :=
  if cfg.hasRedis ∧ redisUp = true then
    match redisLookup st key now with
    | some v => (st, some v)
    | none => memCacheGet cfg st key now
  else
    memCacheGet cfg st key now

/-- Embeds `CacheManager.set(key, value, ttl)` from caching.py.  `ttl or
self.cache_ttl` makes a `None` or `0` argument fall back to the default.
The Redis path stores with per-entry expiry via `setex`; the in-memory
path records only `(value, now)` and drops the requested ttl. -/
def CacheManager.set (cfg : CacheConfig) (st : CacheState) (key value : String)
    (ttl : Option Nat) (now : Nat) (redisUp : Bool) : CacheState × Bool :=
  let ttlEff := match ttl with
    | some t => if t = 0 then cfg.cacheTtl else t
    | none => cfg.cacheTtl
  if cfg.hasRedis ∧ redisUp = true then
    ({ st with redis := insertA st.redis key (value, now + ttlEff) }, true)
  else
    ({ st with mem := insertA st.mem key value, memTs := insertA st.memTs key now },
      true)

/-- Embeds `CacheManager.delete(key)` from caching.py.  The Redis path returns
`True` unconditionally (the count returned by the client's `delete` is
discarded); the in-memory path returns `True` exactly when the key was
present in `_memory_cache`. -/
def CacheManager.delete (cfg : CacheConfig) (st : CacheState) (key : String)
    (redisUp : Bool) : CacheState × Bool :=
  if cfg.hasRedis ∧ redisUp = true then
    ({ st with redis := eraseA st.redis key }, true)
  else
    match lookupA st.mem key with
    | some _ =>
      ({ st with mem := eraseA st.mem key, memTs := eraseA st.memTs key }, true)
    | none => (st, false)

/-!
## Key generation (caching.py `CacheManager._generate_key`)

`_generate_key(prefix, *args, **kwargs)` serializes
`{"args": args, "kwargs": kwargs}` with `json.dumps(..., sort_keys=True)`
(default separators, `ensure_ascii=True`) and returns
`prefix + ":" + md5(serialization).hexdigest()`.  Below: a model of the
JSON serialization for primitive argument values (integers and strings
without escape-worthy characters, covering the shapes in the spec), a full
executable MD5 over byte lists, and their composition.
-/

/-- A primitive JSON argument value: an integer or a plain string. -/
inductive JVal : Type
  | jnum : Int → JVal
  | jstr : String → JVal
deriving DecidableEq, Repr

/-- Serialization of a primitive value by `json.dumps` (strings assumed free of characters
that would be escaped or non-ASCII, as in all uses considered here). -/
def JVal.dump : JVal → String
  | .jnum n => toString n
  | .jstr s => "\"" ++ s ++ "\""

/-- Stable insertion into a key-sorted association list. -/
def insertSorted (p : String × JVal) : List (String × JVal) → List (String × JVal)
  | [] => [p]
  | q :: t => if p.1 < q.1 then p :: q :: t else q :: insertSorted p t

/-- Sort named arguments by key, as `sort_keys=True` does. -/
def sortByKey (l : List (String × JVal)) : List (String × JVal) :=
  l.foldr insertSorted []

/-- Models `json.dumps({"args": args, "kwargs": kwargs}, sort_keys=True)` with the
default separators `", "` and `": "`; the two top-level keys appear in
sorted order `args < kwargs`. -/
def key_data (args : List JVal) (kwargs : List (String × JVal)) : String :=
  "\x7b\"args\": [" ++ String.intercalate ", " (args.map JVal.dump) ++
  "], \"kwargs\": \x7b" ++
  String.intercalate ", "
    ((sortByKey kwargs).map (fun p => "\"" ++ p.1 ++ "\": " ++ p.2.dump)) ++
  "\x7d\x7d"

/-- UTF-8 bytes of an ASCII string (`.encode()` in the source; all strings
hashed here are ASCII, where code points and bytes coincide). -/
def strBytes (s : String) : List Nat := s.data.map Char.toNat

/-- All 32 bits set, for truncation and bitwise complement. -/
def w32mask : Nat := 4294967295

/-- Left rotation of a 32-bit word. -/
def rotl32 (x s : Nat) : Nat := ((x <<< s) ||| (x >>> (32 - s))) &&& w32mask

/-- MD5 per-round shift amounts (RFC 1321). -/
def md5S : List Nat :=
  [7, 12, 17, 22, 7, 12, 17, 22, 7, 12, 17, 22, 7, 12, 17, 22,
   5, 9, 14, 20, 5, 9, 14, 20, 5, 9, 14, 20, 5, 9, 14, 20,
   4, 11, 16, 23, 4, 11, 16, 23, 4, 11, 16, 23, 4, 11, 16, 23,
   6, 10, 15, 21, 6, 10, 15, 21, 6, 10, 15, 21, 6, 10, 15, 21]

/-- MD5 sine-derived additive constants (RFC 1321). -/
def md5K : List Nat :=
  [0xd76aa478, 0xe8c7b756, 0x242070db, 0xc1bdceee,
   0xf57c0faf, 0x4787c62a, 0xa8304613, 0xfd469501,
   0x698098d8, 0x8b44f7af, 0xffff5bb1, 0x895cd7be,
   0x6b901122, 0xfd987193, 0xa679438e, 0x49b40821,
   0xf61e2562, 0xc040b340, 0x265e5a51, 0xe9b6c7aa,
   0xd62f105d, 0x02441453, 0xd8a1e681, 0xe7d3fbc8,
   0x21e1cde6, 0xc33707d6, 0xf4d50d87, 0x455a14ed,
   0xa9e3e905, 0xfcefa3f8, 0x676f02d9, 0x8d2a4c8a,
   0xfffa3942, 0x8771f681, 0x6d9d6122, 0xfde5380c,
   0xa4beea44, 0x4bdecfa9, 0xf6bb4b60, 0xbebfbc70,
   0x289b7ec6, 0xeaa127fa, 0xd4ef3085, 0x04881d05,
   0xd9d4d039, 0xe6db99e5, 0x1fa27cf8, 0xc4ac5665,
   0xf4292244, 0x432aff97, 0xab9423a7, 0xfc93a039,
   0x655b59c3, 0x8f0ccc92, 0xffeff47d, 0x85845dd1,
   0x6fa87e4f, 0xfe2ce6e0, 0xa3014314, 0x4e0811a1,
   0xf7537e82, 0xbd3af235, 0x2ad7d2bb, 0xeb86d391]

/-- The round-dependent nonlinear function of MD5. -/
def md5F (i b c d : Nat) : Nat :=
  if i < 16 then (b &&& c) ||| ((b ^^^ w32mask) &&& d)
  else if i < 32 then (d &&& b) ||| ((d ^^^ w32mask) &&& c)
  else if i < 48 then b ^^^ c ^^^ d
  else c ^^^ (b ||| (d ^^^ w32mask))

/-- The round-dependent message-word index of MD5. -/
def md5G (i : Nat) : Nat :=
  if i < 16 then i
  else if i < 32 then (5 * i + 1) % 16
  else if i < 48 then (3 * i + 5) % 16
  else (7 * i) % 16

/-- One MD5 round on the running `(a, b, c, d)` quadruple. -/
def md5Round (M : List Nat) (s : Nat × Nat × Nat × Nat) (i : Nat) :
    Nat × Nat × Nat × Nat :=
  let f := (md5F i s.2.1 s.2.2.1 s.2.2.2 + s.1 + md5K.getD i 0
            + M.getD (md5G i) 0) &&& w32mask
  (s.2.2.2, (s.2.1 + rotl32 f (md5S.getD i 0)) &&& w32mask, s.2.1, s.2.2.1)

/-- Process one 16-word block: 64 rounds, then add into the chaining state. -/
def md5Block (s : Nat × Nat × Nat × Nat) (M : List Nat) :
    Nat × Nat × Nat × Nat :=
  let t := (List.range 64).foldl (md5Round M) s
  ((s.1 + t.1) &&& w32mask, (s.2.1 + t.2.1) &&& w32mask,
   (s.2.2.1 + t.2.2.1) &&& w32mask, (s.2.2.2 + t.2.2.2) &&& w32mask)

/-- MD5 padding: `0x80`, zeros to 56 mod 64, then the 64-bit little-endian
bit length. -/
def md5Pad (msg : List Nat) : List Nat :=
  let L := msg.length
  msg ++ [128] ++ List.replicate ((120 - (L + 1) % 64) % 64) 0 ++
    (List.range 8).map (fun i => ((8 * L) >>> (8 * i)) % 256)

/-- Little-endian decoding of a 64-byte block into 16 words. -/
def md5Words (block : List Nat) : List Nat :=
  (List.range 16).map (fun j =>
    block.getD (4 * j) 0 + 256 * block.getD (4 * j + 1) 0 +
    65536 * block.getD (4 * j + 2) 0 + 16777216 * block.getD (4 * j + 3) 0)

/-- The MD5 compression pipeline over a byte list. -/
def md5Run (msg : List Nat) : Nat × Nat × Nat × Nat :=
  let p := md5Pad msg
  (List.range (p.length / 64)).foldl
    (fun s i => md5Block s (md5Words ((p.drop (64 * i)).take 64)))
    (0x67452301, 0xefcdab89, 0x98badcfe, 0x10325476)

/-- Lowercase hexadecimal digit. -/
def hexDigit (n : Nat) : Char :=
  if n < 10 then Char.ofNat (48 + n) else Char.ofNat (87 + n)

/-- Two lowercase hex characters of one byte. -/
def byteHex (b : Nat) : List Char := [hexDigit (b / 16), hexDigit (b % 16)]

/-- Little-endian hex rendering of a 32-bit word, as `hexdigest` does. -/
def wordHexLE (w : Nat) : List Char :=
  byteHex (w % 256) ++ byteHex ((w >>> 8) % 256) ++
  byteHex ((w >>> 16) % 256) ++ byteHex ((w >>> 24) % 256)

/-- Models `hashlib.md5(msg).hexdigest()`. -/
def md5hex (msg : List Nat) : String :=
  let s := md5Run msg
  String.mk (wordHexLE s.1 ++ wordHexLE s.2.1 ++ wordHexLE s.2.2.1 ++
    wordHexLE s.2.2.2)

/-- Embeds `CacheManager._generate_key(prefix, *args, **kwargs)` from caching.py
(the first parameter is the namespace that the source calls `prefix`). -/
def _generate_key (ns : String) (args : List JVal)
    (kwargs : List (String × JVal)) : String :=
  ns ++ ":" ++ md5hex (strBytes (key_data args kwargs))

/-!
## Theorems
-/

/-- C9: with rate limiting disabled by configuration, `check_rate_limit`
returns immediately with `Allowed`, performing no backend call and leaving
both the Redis counters and the in-memory counters unchanged. -/
theorem disabled_rate_limit_noop (cfg : RLConfig) (st : RLState)
    (identifier endpoint : String) (now : Nat) (redisUp : Bool)
    (h : cfg.enabled = false) :
    check_rate_limit cfg st identifier endpoint now redisUp = (st, .allowed) := by
  simp [check_rate_limit, h]

/-- C9 witness: the disabled-configuration theorem applied at a concrete
configuration, state and call. -/
theorem disabled_rate_limit_noop_witness :
    (⟨false, 100, 60, true⟩ : RLConfig).enabled = false ∧
      check_rate_limit ⟨false, 100, 60, true⟩ RLState.empty "u" "e" 42 true =
        (RLState.empty, .allowed) :=
  ⟨rfl, disabled_rate_limit_noop ⟨false, 100, 60, true⟩ RLState.empty "u" "e" 42 true rfl⟩

set_option maxRecDepth 20000 in
/-- C6: key generation is deterministic (a pure function of namespace,
positional and named arguments), and separates the spec's listed shapes:
swapping the order of the positional parts `[1, "a"]`, or changing the
named part `x` from `2` to `3`, changes the generated key. -/
theorem generate_key_deterministic_and_separating :
    (∀ (ns : String) (args : List JVal) (kwargs : List (String × JVal)),
      _generate_key ns args kwargs = _generate_key ns args kwargs) ∧
    _generate_key "ns" [.jnum 1, .jstr "a"] [("x", .jnum 2)] ≠
      _generate_key "ns" [.jstr "a", .jnum 1] [("x", .jnum 2)] ∧
    _generate_key "ns" [.jnum 1, .jstr "a"] [("x", .jnum 2)] ≠
      _generate_key "ns" [.jnum 1, .jstr "a"] [("x", .jnum 3)] :=
  ⟨fun _ _ _ => rfl, by decide, by decide⟩

set_option maxRecDepth 10000 in
/-- C2 failing input: with the in-memory fallback (no Redis client),
`limit = 3` and `window_seconds = 60`, the third call for the same
identity and endpoint within one window is already `Denied` (the source
denies when the post-increment counter is `>=` the limit, not `>`), so the
claimed "three Allowed then the fourth Denied" fails at the third call. -/
theorem memory_fallback_denies_third_of_three :
    (simulate ⟨true, 3, 60, false⟩ "a" "e" 100 false 4 RLState.empty).2 =
      [.allowed, .allowed, .denied, .denied] := by
  decide

set_option maxRecDepth 10000 in
/-- C3 failing input: with the in-memory fallback, `limit = 1` and
`window_seconds = 1`, the very first `admit("a","e")` call is `Denied`
(its post-increment counter `1 >= 1`), where the claim requires the first
call to be `Allowed`. -/
theorem memory_fallback_limit_one_denies_first :
    (check_rate_limit ⟨true, 1, 1, false⟩ RLState.empty "a" "e" 0 false).2 =
      .denied := by
  decide

set_option maxRecDepth 10000 in
/-- C5 failing input: with the Redis backend reachable throughout and
`limit = 3`, the fourth call finds the Redis counter at `3 >= 3`, so the
source raises the HTTP 429 inside its own `try` block — and the blanket
`except Exception` swallows it and re-admits the call through the
in-memory fallback: the fourth call is observed `Allowed` instead of the
rate-limit rejection propagating to the caller. -/
theorem remote_rate_limit_rejection_swallowed :
    (simulate ⟨true, 3, 60, true⟩ "a" "e" 100 true 4 RLState.empty).2 =
      [.allowed, .allowed, .allowed, .allowed] ∧
    lookupA (simulate ⟨true, 3, 60, true⟩ "a" "e" 100 true 3 RLState.empty).1.redis
      ("rate_limit:a:e:" ++ Nat.repr (100 / 60)) = some 3 := by
  constructor <;> decide

set_option maxRecDepth 10000 in
/-- C1 counterexample: six calls with the same identity, endpoint and
window, all with the Redis client present and reachable, yield five
`Allowed` results even though `limit = 3`: once the Redis counter
saturates, the swallowed 429 re-routes each further call to the separate
in-memory counter, which admits `limit - 1` more. -/
theorem mixed_backend_admission_exceeds_limit :
    3 < allowedCount (simulate ⟨true, 3, 60, true⟩ "a" "e" 100 true 6 RLState.empty).2 := by
  decide

/-- The rate-limit state reached by repeated same-window calls on the
in-memory fallback: no Redis counters and a single bucket holding count
`k` for one window of one key. -/
def singleState (key windowKey : String) (k : Nat) : RLState :=
  ⟨[], [(key, [(windowKey, k)])]⟩

/-- One enabled, Redis-less `check_rate_limit` call from the empty state:
the counter becomes 1 and the call is denied iff `1 >= limit`. -/
theorem check_rate_limit_empty (cfg : RLConfig) (identifier endpoint : String)
    (now : Nat) (redisUp : Bool) (hEn : cfg.enabled = true)
    (hNR : cfg.hasRedis = false) :
    check_rate_limit cfg RLState.empty identifier endpoint now redisUp =
      (singleState (rate_limit_key identifier endpoint)
        (Nat.repr (now / cfg.window)) 1,
       if cfg.limit ≤ 1 then .denied else .allowed) := by
  simp [check_rate_limit, hEn, hNR, memoryRateLimitStep, RLState.empty,
    singleState, lookupA, insertA]

/-- One enabled, Redis-less `check_rate_limit` call from a single-bucket
state of the same key and window: the counter goes from `k` to `k + 1`
and the call is denied iff `k + 1 >= limit`. -/
theorem check_rate_limit_single (cfg : RLConfig) (identifier endpoint : String)
    (now : Nat) (redisUp : Bool) (k : Nat) (hEn : cfg.enabled = true)
    (hNR : cfg.hasRedis = false) :
    check_rate_limit cfg
        (singleState (rate_limit_key identifier endpoint)
          (Nat.repr (now / cfg.window)) k)
        identifier endpoint now redisUp =
      (singleState (rate_limit_key identifier endpoint)
        (Nat.repr (now / cfg.window)) (k + 1),
       if cfg.limit ≤ k + 1 then .denied else .allowed) := by
  simp [check_rate_limit, hEn, hNR, memoryRateLimitStep, singleState,
    lookupA, insertA]

/-- Counting `Allowed` results distributes over cons. -/
theorem allowedCount_cons (r : RLResult) (rs : List RLResult) :
    allowedCount (r :: rs) =
      (if r = .allowed then 1 else 0) + allowedCount rs := by
  cases r <;> simp [allowedCount, Nat.add_comm]

/-- On the in-memory fallback, a run started from a single-bucket state
with count `k` admits at most `limit - 1 - k` further calls. -/
theorem allowedCount_simulate_single_le (cfg : RLConfig)
    (identifier endpoint : String) (now : Nat) (redisUp : Bool)
    (hEn : cfg.enabled = true) (hNR : cfg.hasRedis = false) :
    ∀ (n k : Nat),
      allowedCount (simulate cfg identifier endpoint now redisUp n
        (singleState (rate_limit_key identifier endpoint)
          (Nat.repr (now / cfg.window)) k)).2 ≤ cfg.limit - 1 - k := by
  intro n
  induction n with
  | zero => intro k; simp [simulate, allowedCount]
  | succ m ih =>
    intro k
    have hstep := check_rate_limit_single cfg identifier endpoint now redisUp k
      hEn hNR
    simp only [simulate, hstep]
    rw [allowedCount_cons]
    have hrec := ih (k + 1)
    by_cases hc : cfg.limit ≤ k + 1
    · simp only [hc, if_pos, if_true]
      simp only [show (RLResult.denied = RLResult.allowed) = False by simp,
        if_false]
      omega
    · simp only [hc, if_neg, if_false]
      simp only [show (RLResult.allowed = RLResult.allowed) = True by simp,
        if_true]
      omega

/-- C1 amended: the admission bound holds per backend, not across mixed
backends.  When every call is served by the in-memory fallback (no Redis
client configured), any number of `check_rate_limit` calls with the same
identity and endpoint within one fixed window admits at most
`rate_limit_requests` of them. -/
theorem admission_bound_local_backend (cfg : RLConfig)
    (identifier endpoint : String) (now : Nat) (redisUp : Bool) (n : Nat)
    (hEn : cfg.enabled = true) (hNR : cfg.hasRedis = false) :
    allowedCount (simulate cfg identifier endpoint now redisUp n
      RLState.empty).2 ≤ cfg.limit := by
  cases n with
  | zero => simp [simulate, allowedCount]
  | succ m =>
    have hstep := check_rate_limit_empty cfg identifier endpoint now redisUp
      hEn hNR
    simp only [simulate, hstep]
    rw [allowedCount_cons]
    have hrec := allowedCount_simulate_single_le cfg identifier endpoint now
      redisUp hEn hNR m 1
    by_cases hc : cfg.limit ≤ 1
    · simp only [hc, if_pos, if_true]
      simp only [show (RLResult.denied = RLResult.allowed) = False by simp,
        if_false]
      omega
    · simp only [hc, if_neg, if_false]
      simp only [show (RLResult.allowed = RLResult.allowed) = True by simp,
        if_true]
      omega

/-- C1 witness: the local-backend admission bound applied at a concrete
configuration (`limit = 3`) and a five-call run. -/
theorem admission_bound_local_backend_witness :
    (⟨true, 3, 60, false⟩ : RLConfig).enabled = true ∧
      (⟨true, 3, 60, false⟩ : RLConfig).hasRedis = false ∧
      allowedCount (simulate ⟨true, 3, 60, false⟩ "a" "e" 100 false 5
        RLState.empty).2 ≤ 3 :=
  ⟨rfl, rfl,
    admission_bound_local_backend ⟨true, 3, 60, false⟩ "a" "e" 100 false 5
      rfl rfl⟩

set_option maxRecDepth 10000 in
/-- C4 counterexample: on the in-memory fallback, `set("k", v, ttl=1)` at
time 0 followed by `get("k")` at time 2 (at/after `inserted_at +
ttl_seconds`) still returns the value instead of behaving as a miss: the
fallback ignores the per-entry ttl. -/
theorem memory_cache_ignores_entry_ttl :
    (CacheManager.get ⟨false, 3600⟩
      (CacheManager.set ⟨false, 3600⟩ CacheState.empty "k" "v" (some 1) 0
        false).1
      "k" 2 false).2 = some "v" := by
  decide

/-- C4 amended: expiry of a freshly set entry, characterized per backend.
When the `set` is served by Redis, a later `get` returns the value exactly
when it is served by Redis before `inserted_at + ttl` (with a zero or
absent ttl replaced by the default) and misses at or after that instant;
when the `set` is served by the in-memory fallback, the requested ttl is
ignored and the entry instead expires `cache_ttl` (the manager default,
3600 in the source) seconds after insertion. -/
theorem cache_expiry_characterization (cfg : CacheConfig) (key v : String)
    (ttl t0 t1 : Nat) (upS upG : Bool) :
    (CacheManager.get cfg
      (CacheManager.set cfg CacheState.empty key v (some ttl) t0 upS).1
      key t1 upG).2 =
    if cfg.hasRedis ∧ upS = true then
      (if (cfg.hasRedis ∧ upG = true) ∧
          t1 < t0 + (if ttl = 0 then cfg.cacheTtl else ttl)
        then some v else none)
    else
      (if t1 - t0 < cfg.cacheTtl then some v else none) := by
  cases hR : cfg.hasRedis <;> cases upS <;> cases upG <;>
    by_cases ht : t1 < t0 + (if ttl = 0 then cfg.cacheTtl else ttl) <;>
    by_cases ht2 : t1 - t0 < cfg.cacheTtl <;>
    simp [CacheManager.set, CacheManager.get, memCacheGet, redisLookup,
      lookupA, insertA, CacheState.empty, hR, ht, ht2]

/-- C8 counterexample: with the Redis client present and reachable but
lacking the key, and the key present only in the in-memory store,
`get("k")` returns the in-memory value: a normal Remote miss falls through
to the Local store instead of returning Miss. -/
theorem remote_miss_falls_through_to_memory :
    (CacheManager.get ⟨true, 3600⟩ ⟨[], [("k", "v")], [("k", 0)]⟩ "k" 5
      true).2 = some "v" := by
  decide

/-- C8 amended: whenever the Redis read reports the key absent (a normal
miss, not a connectivity error), `get` behaves exactly as it would with no
Redis client at all — it consults the in-memory fallback and returns its
result; Miss is returned only if the fallback also misses. -/
theorem remote_miss_behaves_as_local (cfg : CacheConfig) (st : CacheState)
    (key : String) (now : Nat) (up : Bool)
    (h : redisLookup st key now = none) :
    CacheManager.get cfg st key now up =
      CacheManager.get ⟨false, cfg.cacheTtl⟩ st key now up := by
  have hmem : memCacheGet cfg st key now =
      memCacheGet ⟨false, cfg.cacheTtl⟩ st key now := rfl
  unfold CacheManager.get
  by_cases hc : cfg.hasRedis = true ∧ up = true
  · simp [hc, h, hmem]
  · simp [hc, hmem]

/-- C8 witness: the remote-miss theorem applied at a concrete state whose
Redis store lacks the key while the in-memory store holds it. -/
theorem remote_miss_behaves_as_local_witness :
    redisLookup ⟨[], [("k", "v")], [("k", 0)]⟩ "k" 5 = none ∧
      CacheManager.get ⟨true, 3600⟩ ⟨[], [("k", "v")], [("k", 0)]⟩ "k" 5 true =
        CacheManager.get ⟨false, 3600⟩ ⟨[], [("k", "v")], [("k", 0)]⟩ "k" 5
          true :=
  ⟨rfl,
    remote_miss_behaves_as_local ⟨true, 3600⟩ ⟨[], [("k", "v")], [("k", 0)]⟩
      "k" 5 true rfl⟩

/-- C7 counterexample: with the Redis client present and reachable and no
entry stored anywhere for `"k"`, `delete("k")` returns `true` even though
no entry existed. -/
theorem remote_delete_true_without_entry :
    (CacheManager.delete ⟨true, 3600⟩ CacheState.empty "k" true).2 = true ∧
      lookupA CacheState.empty.redis "k" = none ∧
      lookupA CacheState.empty.mem "k" = none := by
  decide

/-- C7 amended: `delete(key)` returns `true` iff the deletion is served by
the Redis backend (where the source returns `True` unconditionally,
regardless of whether an entry existed) or the key exists in the in-memory
store that serves it otherwise. -/
theorem delete_result_characterization (cfg : CacheConfig) (st : CacheState)
    (key : String) (up : Bool) :
    (CacheManager.delete cfg st key up).2 = true ↔
      ((cfg.hasRedis = true ∧ up = true) ∨
        (lookupA st.mem key).isSome = true) := by
  unfold CacheManager.delete
  by_cases hc : cfg.hasRedis = true ∧ up = true
  · simp [hc]
  · cases hm : lookupA st.mem key <;> simp [hc, hm]

/-- A successful lookup exhibits membership. -/
theorem lookupA_mem {α : Type} (l : List (String × α)) (k : String) (v : α)
    (h : lookupA l k = some v) : (k, v) ∈ l := by
  induction l with
  | nil => simp [lookupA] at h
  | cons q t ih =>
    obtain ⟨a, b⟩ := q
    simp only [lookupA] at h
    by_cases hak : a = k
    · rw [if_pos hak] at h
      injection h with hv
      subst hak; subst hv
      exact List.mem_cons_self _ _
    · rw [if_neg hak] at h
      exact List.mem_cons_of_mem _ (ih h)

/-- Every element of `insertA l k v` is the inserted pair or an original
element. -/
theorem mem_insertA {α : Type} (l : List (String × α)) (k : String) (v : α) :
    ∀ p ∈ insertA l k v, p = (k, v) ∨ p ∈ l := by
  induction l with
  | nil => intro p hp; simp [insertA] at hp; left; exact hp
  | cons q t ih =>
    obtain ⟨a, b⟩ := q
    intro p hp
    simp only [insertA] at hp
    by_cases hak : a = k
    · rw [if_pos hak] at hp
      rcases List.mem_cons.mp hp with h | h
      · left; exact h
      · right; exact List.mem_cons_of_mem _ h
    · rw [if_neg hak] at hp
      rcases List.mem_cons.mp hp with h | h
      · right; exact h ▸ List.mem_cons_self _ _
      · rcases ih p h with h' | h'
        · left; exact h'
        · right; exact List.mem_cons_of_mem _ h'

/-- Insertion grows the list by at most one entry. -/
theorem length_insertA_le {α : Type} (l : List (String × α)) (k : String)
    (v : α) : (insertA l k v).length ≤ l.length + 1 := by
  induction l with
  | nil => simp [insertA]
  | cons q t ih =>
    obtain ⟨a, b⟩ := q
    simp only [insertA]
    by_cases hak : a = k
    · rw [if_pos hak]; simp
    · rw [if_neg hak]
      simpa using Nat.succ_le_succ ih

/-- Erasing a present key removes exactly one entry. -/
theorem length_eraseA_of_mem {α : Type} (l : List (String × α)) (k : String)
    (h : k ∈ l.map Prod.fst) : (eraseA l k).length + 1 = l.length := by
  induction l with
  | nil => simp at h
  | cons q t ih =>
    obtain ⟨a, b⟩ := q
    simp only [eraseA]
    by_cases hak : a = k
    · rw [if_pos hak]; simp
    · rw [if_neg hak]
      have hk : k ∈ t.map Prod.fst := by
        rcases List.mem_cons.mp h with h' | h'
        · exact absurd h'.symm hak
        · exact h'
      have := ih hk
      simp only [List.length_cons]
      omega

/-- A Boolean that is not `true` is `false`. -/
theorem bool_eq_false {b : Bool} (h : ¬ b = true) : b = false := by
  cases b
  · rfl
  · exact absurd rfl h

/-- Irreflexivity of `natListLt`. -/
theorem natListLt_irrefl : ∀ l : List Nat, natListLt l l = false
  | [] => rfl
  | a :: as => by
    simp only [natListLt]
    rw [if_neg (Nat.lt_irrefl a), if_neg (Nat.lt_irrefl a)]
    exact natListLt_irrefl as

/-- Asymmetry of `natListLt`. -/
theorem natListLt_asymm :
    ∀ l₁ l₂ : List Nat, natListLt l₁ l₂ = true → natListLt l₂ l₁ = false := by
  intro l₁
  induction l₁ with
  | nil =>
    intro l₂ h
    cases l₂ with
    | nil => simp [natListLt] at h
    | cons b bs => simp [natListLt]
  | cons a as ih =>
    intro l₂ h
    cases l₂ with
    | nil => simp [natListLt] at h
    | cons b bs =>
      simp only [natListLt] at h ⊢
      by_cases hab : a < b
      · rw [if_neg (by omega : ¬ b < a), if_pos hab]
      · rw [if_neg hab] at h
        by_cases hba : b < a
        · rw [if_pos hba] at h
          exact absurd h (by decide)
        · rw [if_neg hba] at h
          rw [if_neg hba, if_neg hab]
          exact ih bs h

/-- Failures of `natListLt` compose transitively (it is the complement of
a total preorder). -/
theorem natListLt_trans_neg :
    ∀ l₁ l₂ l₃ : List Nat, natListLt l₁ l₂ = false →
      natListLt l₂ l₃ = false → natListLt l₁ l₃ = false := by
  intro l₁
  induction l₁ with
  | nil =>
    intro l₂ l₃ h1 h2
    cases l₃ with
    | nil => simp [natListLt]
    | cons c cs =>
      cases l₂ with
      | nil => simp [natListLt] at h2
      | cons b bs => simp [natListLt] at h1
  | cons a as ih =>
    intro l₂ l₃ h1 h2
    cases l₃ with
    | nil => simp [natListLt]
    | cons c cs =>
      cases l₂ with
      | nil => simp [natListLt] at h2
      | cons b bs =>
        simp only [natListLt] at h1 h2 ⊢
        by_cases hab : a < b
        · rw [if_pos hab] at h1
          exact absurd h1 (by decide)
        · rw [if_neg hab] at h1
          by_cases hbc : b < c
          · rw [if_pos hbc] at h2
            exact absurd h2 (by decide)
          · rw [if_neg hbc] at h2
            by_cases hba : b < a
            · rw [if_neg (by omega : ¬ a < c), if_pos (by omega : c < a)]
            · rw [if_neg hba] at h1
              by_cases hcb : c < b
              · rw [if_neg (by omega : ¬ a < c), if_pos (by omega : c < a)]
              · rw [if_neg hcb] at h2
                rw [if_neg (by omega : ¬ a < c), if_neg (by omega : ¬ c < a)]
                exact ih bs cs h1 h2

/-- Irreflexivity of `strLt`. -/
theorem strLt_irrefl (s : String) : strLt s s = false :=
  natListLt_irrefl _

/-- Asymmetry of `strLt`. -/
theorem strLt_asymm {s₁ s₂ : String} (h : strLt s₁ s₂ = true) :
    strLt s₂ s₁ = false :=
  natListLt_asymm _ _ h

/-- Failures of `strLt` compose transitively. -/
theorem strLt_trans_neg {s₁ s₂ s₃ : String} (h1 : strLt s₁ s₂ = false)
    (h2 : strLt s₂ s₃ = false) : strLt s₁ s₃ = false :=
  natListLt_trans_neg _ _ _ h1 h2

/-- The running minimum of the fold in `minKeyA` is the start value or one
of the traversed keys. -/
theorem foldl_min_mem {α : Type} (t : List (String × α)) :
    ∀ a : String,
      t.foldl (fun acc p => if strLt p.1 acc then p.1 else acc) a ∈
        a :: t.map Prod.fst := by
  induction t with
  | nil => intro a; exact List.mem_cons_self _ _
  | cons q t ih =>
    intro a
    show t.foldl (fun acc p => if strLt p.1 acc then p.1 else acc)
      (if strLt q.1 a then q.1 else a) ∈ a :: q.1 :: t.map Prod.fst
    have h := ih (if strLt q.1 a then q.1 else a)
    rcases List.mem_cons.mp h with h' | h'
    · by_cases hq : strLt q.1 a = true
      · rw [h', if_pos hq]
        exact List.mem_cons_of_mem _ (List.mem_cons_self _ _)
      · rw [h', if_neg hq]
        exact List.mem_cons_self _ _
    · exact List.mem_cons_of_mem _ (List.mem_cons_of_mem _ h')

/-- No traversed key (nor the start value) is strictly below the running
minimum of the fold in `minKeyA`. -/
theorem foldl_min_not_lt {α : Type} (t : List (String × α)) :
    ∀ a : String,
      strLt a (t.foldl (fun acc p => if strLt p.1 acc then p.1 else acc) a)
          = false ∧
        ∀ p ∈ t,
          strLt p.1
            (t.foldl (fun acc p => if strLt p.1 acc then p.1 else acc) a)
            = false := by
  induction t with
  | nil => intro a; exact ⟨strLt_irrefl a, by simp⟩
  | cons q t ih =>
    intro a
    obtain ⟨h1, h2⟩ := ih (if strLt q.1 a then q.1 else a)
    have haa : strLt a (if strLt q.1 a then q.1 else a) = false := by
      by_cases hq : strLt q.1 a = true
      · rw [if_pos hq]; exact strLt_asymm hq
      · rw [if_neg hq]; exact strLt_irrefl a
    have hqa : strLt q.1 (if strLt q.1 a then q.1 else a) = false := by
      by_cases hq : strLt q.1 a = true
      · rw [if_pos hq]; exact strLt_irrefl q.1
      · rw [if_neg hq]; exact bool_eq_false hq
    refine ⟨strLt_trans_neg haa h1, ?_⟩
    intro p hp
    rcases List.mem_cons.mp hp with h' | h'
    · subst h'
      exact strLt_trans_neg hqa h1
    · exact h2 p h'

/-- The value of `minKeyA` on a nonempty association list is one of its keys. -/
theorem minKeyA_mem {α : Type} (l : List (String × α)) (h : l ≠ []) :
    minKeyA l ∈ l.map Prod.fst := by
  cases l with
  | nil => exact absurd rfl h
  | cons q t =>
    obtain ⟨a, b⟩ := q
    exact foldl_min_mem t a

/-- No key of an association list is strictly below `minKeyA`. -/
theorem minKeyA_not_lt {α : Type} (l : List (String × α)) :
    ∀ p ∈ l, strLt p.1 (minKeyA l) = false := by
  cases l with
  | nil => simp
  | cons q t =>
    obtain ⟨a, b⟩ := q
    intro p hp
    rcases List.mem_cons.mp hp with h' | h'
    · subst h'
      exact (foldl_min_not_lt t a).1
    · exact (foldl_min_not_lt t a).2 p h'

/-- The in-memory fallback step keeps every key's bucket dictionary at
size at most two. -/
theorem memStep_buckets_bounded (cfg : RLConfig) (st : RLState)
    (key wk : String) (h : ∀ p ∈ st.mem, p.2.length ≤ 2) :
    ∀ p ∈ (memoryRateLimitStep cfg st key wk).1.mem, p.2.length ≤ 2 := by
  intro p hp
  simp only [memoryRateLimitStep] at hp
  rcases mem_insertA _ _ _ p hp with h' | h'
  · have hb : ((lookupA st.mem key).getD []).length ≤ 2 := by
      cases hl : lookupA st.mem key with
      | none => simp
      | some b0 =>
        simpa using h (key, b0) (lookupA_mem st.mem key b0 hl)
    set b1 := insertA ((lookupA st.mem key).getD []) wk
      ((lookupA ((lookupA st.mem key).getD []) wk).getD 0 + 1) with hb1
    have hlen : b1.length ≤ 3 :=
      le_trans (length_insertA_le _ _ _) (by omega)
    by_cases hgt : b1.length > 2
    · have hne : b1 ≠ [] := by
        intro hnil
        rw [hnil] at hgt
        simp at hgt
      have := length_eraseA_of_mem b1 (minKeyA b1) (minKeyA_mem b1 hne)
      rw [h']
      simp only [hgt, if_pos, if_true]
      omega
    · rw [h']
      simp only [hgt, if_neg, if_false]
      omega
  · exact h p h'

/-- C10 amended: after any `check_rate_limit` call, every (identity,
endpoint) key of the in-memory fallback retains at most two window
buckets (assuming the invariant held before the call); the bucket removed
by the cleanup step is the one whose decimal window-id string is
lexicographically smallest — which, as the counterexample shows, need not
be the numerically smallest window, so the retained pair need not be the
two most recent windows. -/
theorem memory_buckets_bounded (cfg : RLConfig) (st : RLState)
    (identifier endpoint : String) (now : Nat) (redisUp : Bool)
    (h : ∀ p ∈ st.mem, p.2.length ≤ 2) :
    (∀ p ∈ (check_rate_limit cfg st identifier endpoint now redisUp).1.mem,
      p.2.length ≤ 2) ∧
    ∀ (b : List (String × Nat)), b ≠ [] →
      minKeyA b ∈ b.map Prod.fst ∧ ∀ p ∈ b, strLt p.1 (minKeyA b) = false := by
  refine ⟨?_, fun b hb => ⟨minKeyA_mem b hb, minKeyA_not_lt b⟩⟩
  by_cases hEn : cfg.enabled = false
  · simpa [check_rate_limit, hEn] using h
  · by_cases hR : cfg.hasRedis
    · cases redisUp with
      | false =>
        simp only [check_rate_limit, hEn, hR, if_false, if_true, Bool.false_eq_true]
        exact memStep_buckets_bounded _ _ _ _ h
      | true =>
        cases hl : lookupA st.redis
            (rate_limit_key identifier endpoint ++ ":" ++
              Nat.repr (now / cfg.window)) with
        | some current =>
          by_cases hc : current ≥ cfg.limit
          · simpa [check_rate_limit, hEn, hR, hl, hc] using
              memStep_buckets_bounded cfg st _ _ h
          · simpa [check_rate_limit, hEn, hR, hl, hc] using h
        | none =>
          simpa [check_rate_limit, hEn, hR, hl] using h
    · simpa [check_rate_limit, hEn, hR] using
        memStep_buckets_bounded cfg st _ _ h

/-- C10 witness: the bucket-retention theorem applied at a concrete
configuration, the empty state and a concrete call. -/
theorem memory_buckets_bounded_witness :
    (∀ p ∈ RLState.empty.mem, p.2.length ≤ 2) ∧
      ((∀ p ∈ (check_rate_limit ⟨true, 100, 1, false⟩ RLState.empty "a" "e" 9
          false).1.mem, p.2.length ≤ 2) ∧
        ∀ (b : List (String × Nat)), b ≠ [] →
          minKeyA b ∈ b.map Prod.fst ∧ ∀ p ∈ b, strLt p.1 (minKeyA b) = false) :=
  ⟨by simp [RLState.empty],
    memory_buckets_bounded ⟨true, 100, 1, false⟩ RLState.empty "a" "e" 9 false
      (by simp [RLState.empty])⟩

set_option maxRecDepth 10000 in
/-- C10 counterexample: three in-memory calls in consecutive windows 9, 10
and 11 (limit 100, one-second windows).  After the third call the cleanup
evicts the bucket whose window-id string `"10"` is the *lexicographic*
minimum of `{"9", "10", "11"}`, so the retained buckets are windows 9 and
11 — not the two most recent windows, and the evicted window id is not the
numerically smallest. -/
theorem cleanup_evicts_lexicographic_min :
    lookupA
      (let s1 := (check_rate_limit ⟨true, 100, 1, false⟩ RLState.empty "a" "e"
        9 false).1
       let s2 := (check_rate_limit ⟨true, 100, 1, false⟩ s1 "a" "e" 10
        false).1
       ((check_rate_limit ⟨true, 100, 1, false⟩ s2 "a" "e" 11 false).1).mem)
      (rate_limit_key "a" "e") = some [("9", 1), ("11", 1)] := by
  decide
